import Mathlib

/-!
Verification of the dev-workspaces repository (src/config.rs, src/git.rs, src/lib.rs).

The Rust code is shallowly embedded: filesystem paths become lists of components,
the `HashMap`s of the config schema become association lists, `anyhow` errors
become an explicit error inductive, and the ambient filesystem that
`fs::create_dir` / `Path::exists` touch becomes an explicit list of existing
paths threaded through the restore engine.  External collaborators (the git
transport, the OS credential helper, the environment and the wall clock) become
explicit parameters, as the specification treats them as capabilities.
-/

namespace DevWorkspaces

/-! ## Paths

A `Path` is the list of components of a Rust `PathBuf`; the string form of an
absolute path such as "/r/w0" splits on '/' into ["", "r", "w0"], so absolute
paths are exactly those whose first component is empty, matching
`Path::is_absolute`. -/

abbrev Path := List String

/-- Split a character list at '/' separators (structurally recursive so that
concrete paths evaluate; agrees with `String.splitOn "/"`). -/
def splitComps : List Char → List Char → List String
  | [], acc => [String.mk acc.reverse]
  | c :: rest, acc =>
    if c = '/' then String.mk acc.reverse :: splitComps rest []
    else splitComps rest (c :: acc)

def Path.ofString (s : String) : Path := splitComps s.data []

def Path.toStr (p : Path) : String := String.intercalate "/" p

/-- `Path::is_absolute`: the string form starts with '/'. -/
def Path.isAbs (p : Path) : Bool := p.head? == some ""

/-- `PathBuf::join` with a path argument: an absolute argument replaces the
receiver, a relative one is appended component-wise. -/
def Path.joinPath (p q : Path) : Path := if Path.isAbs q then q else p ++ q

/-- `PathBuf::join` with a string argument (the map keys of the config). -/
def Path.join (p : Path) (s : String) : Path := Path.joinPath p (Path.ofString s)

/-- `Path::parent`: `None` for the root directory and for the empty path,
otherwise the path with its last component removed (`parent` of a single
relative component is `Some("")`, the empty path, here `[]`). -/
def Path.parent : Path → Option Path
  | [] => none
  | [""] => none
  | ["", ""] => none
  | p => some p.dropLast

/-- Key lookup in a `HashMap` rendered as an association list. -/
def lookupKey (l : List (String × α)) (k : String) : Option α :=
  (l.find? (fun x => x.1 == k)).map (·.2)

/-! ## Errors and effects -/

/-- The `anyhow`/`io`/`git2` error variants distinguished by the code. -/
inductive Err
  | parse (s : String)
  | notFound (s : String)
  | other (s : String)
  | fsError (s : String)
  | transport (s : String)
  | panic
deriving DecidableEq

/-- Side effects a restore invocation performs on the filesystem. -/
inductive Effect
  | createdDir (p : Path)
  | cloned (p : Path)
deriving DecidableEq

/-! ## The config data model (src/config.rs) -/

inductive GitHost
  | gitHub
  | gitLab
deriving DecidableEq

inductive GitCloneStrategy
  | worktree
  | branch
deriving DecidableEq

inductive GitCloneProtocol
  | https
  | ssh
deriving DecidableEq

def GitCloneStrategy.is_worktree : GitCloneStrategy → Bool
  | .worktree => true
  | .branch => false

structure GitConfig where
  clone_strategy : Option GitCloneStrategy
  protocol : Option GitCloneProtocol
  host : Option GitHost
deriving DecidableEq

structure ProjectGitSettings where
  repo : String
  core_settings : GitConfig
deriving DecidableEq

structure Project where
  git : Option ProjectGitSettings
deriving DecidableEq

structure Workspace where
  projects : List (String × Project)
  git : Option GitConfig
deriving DecidableEq

structure Config where
  root : String
  git : GitConfig
  workspaces : List (String × Workspace)
deriving DecidableEq

/-- `Option::or`. -/
def orO (a b : Option α) : Option α :=
  match a with
  | some x => some x
  | none => b

/-- `Project::overlay_git_config`: a project without git settings stays bare;
otherwise every unset field takes the value handed down from the workspace. -/
def Project.overlay_git_config (p : Project) (g : GitConfig) : Project :=
  match p.git with
  | none => p
  | some proj_git =>
    { git := some { proj_git with core_settings :=
        { host := orO proj_git.core_settings.host g.host
          protocol := orO proj_git.core_settings.protocol g.protocol
          clone_strategy := orO proj_git.core_settings.clone_strategy g.clone_strategy } } }

/-- The `ws_git` computation at the top of `Workspace::overlay_git_config`:
start from the workspace's own settings (or the handed-down ones when absent)
and fill every unset field from the handed-down config. -/
def resolveGitConfig (own : Option GitConfig) (g : GitConfig) : GitConfig :=
  let base := match own with
    | some x => x
    | none => g
  { host := orO base.host g.host
    protocol := orO base.protocol g.protocol
    clone_strategy := orO base.clone_strategy g.clone_strategy }

/-- `Workspace::overlay_git_config`: resolve the workspace-level settings
against the handed-down config, push the result into every project, and store
it back on the workspace. -/
def Workspace.overlay_git_config (w : Workspace) (g : GitConfig) : Workspace :=
  { projects := w.projects.map (fun np =>
      (np.1, np.2.overlay_git_config (resolveGitConfig w.git g)))
    git := some (resolveGitConfig w.git g) }

/-- The `~`-expansion of `absolute_path` in src/lib.rs, with the home directory
an explicit parameter (the code reads it from the environment). -/
def absolutePath (home : String) (path : String) : String :=
  match Path.ofString path with
  | "~" :: rest => Path.toStr (Path.ofString home ++ rest)
  | _ => path

/-- The post-parse pass of `Config::from_str`: make the root absolute, then
overlay the top-level git settings onto every workspace. -/
def overlayConfig (home : String) (c : Config) : Config :=
  { c with
    root := absolutePath home c.root
    workspaces := c.workspaces.map (fun nw => (nw.1, nw.2.overlay_git_config c.git)) }

/-- `Config::collect_workspace_paths`. -/
def Config.collect_workspace_paths (c : Config) : List Path :=
  let parent := Path.ofString c.root
  c.workspaces.map (fun nw => Path.join parent nw.1)

/-- `Workspace::collect_project_paths`. -/
def Workspace.collect_project_paths (w : Workspace) (parent : Path) : List Path :=
  w.projects.map (fun np => Path.join parent np.1)

/-- `Config::collect_project_paths`. -/
def Config.collect_project_paths (c : Config) : List Path :=
  let parent := Path.ofString c.root
  (c.workspaces.map (fun nw => nw.2.collect_project_paths (Path.join parent nw.1))).flatten

/-- The prefix-stripping step of `Config::lookup_workspace`. -/
def Config.stripRoot (c : Config) (p : Path) : Path :=
  let rootP := Path.ofString c.root
  if rootP.isPrefixOf p then p.drop rootP.length else p

/-- `Config::lookup_workspace`: strip the root prefix when present and look the
remaining string up among the workspace keys. -/
def Config.lookup_workspace (c : Config) (ws_path : Path) : Except Err Workspace :=
  match lookupKey c.workspaces (Path.toStr (c.stripRoot ws_path)) with
  | some w => .ok w
  | none => .error (.notFound ("Could not find workspace: " ++ Path.toStr (c.stripRoot ws_path)))

/-- `Config::lookup_project`: resolve the parent as a workspace, then look the
final component up among that workspace's project keys. -/
def Config.lookup_project (c : Config) (proj_path : Path) : Except Err Project :=
  match Path.parent proj_path with
  | none => .error (.other "Expected project path to be sub path to workspace")
  | some ws_path =>
    match c.lookup_workspace ws_path with
    | .error e => .error e
    | .ok workspace =>
      match lookupKey workspace.projects (Path.toStr (proj_path.drop ws_path.length)) with
      | some project => .ok project
      | none => .error (.notFound ("Could not find project: " ++ Path.toStr proj_path))

/-! ## Filesystem model and the restore engine (src/lib.rs, src/git.rs)

The filesystem is the set of directories that exist, as a list of paths; a
restore invocation threads it explicitly and reports the effects it performed.
`fs::create_dir` fails when the target already exists or its parent does not,
and succeeds otherwise, mirroring the OS contract the code relies on. -/

abbrev FS := List Path

/-- `Path::exists` against the explicit filesystem. -/
def fsExists (fs : FS) (p : Path) : Bool := decide (p ∈ fs)

/-- `fs::create_dir`. -/
def createDir (fs : FS) (p : Path) : Except Err FS :=
  if p ∈ fs then .error (.fsError "File exists")
  else
    match Path.parent p with
    | none => .error (.fsError "No such file or directory")
    | some par =>
      if par ∈ fs then .ok (p :: fs) else .error (.fsError "No such file or directory")

/-- The `Git` struct of src/git.rs with its `GitCloneOptions` inlined. -/
structure Git where
  path : Path
  repo : String
  host : GitHost
  clone_strategy : GitCloneStrategy
  protocol : GitCloneProtocol
deriving DecidableEq

/-- `Git::new`: the remaining unset settings fall back to GitHub/branch/HTTPS. -/
def Git.new (path : Path) (proj_git : ProjectGitSettings) : Git :=
  { path := path
    repo := proj_git.repo
    host := proj_git.core_settings.host.getD .gitHub
    clone_strategy := proj_git.core_settings.clone_strategy.getD .branch
    protocol := proj_git.core_settings.protocol.getD .https }

/-- `Git::clone`.  The network transfer itself (`RepoBuilder::clone` together
with its credential and progress callbacks) is outside the repository; it is
modelled by the oracle `cloneOk`: on success the clone target directory comes
to exist, on failure a transport error is returned and nothing is created.
A worktree-strategy clone first creates the project directory itself and then
clones bare into its `.bare` subdirectory. -/
def Git.clone (cloneOk : Path → Bool) (fs : FS) (g : Git) : Except Err (FS × List Effect) :=
  if g.path ∈ fs then .ok (fs, [])
  else if g.clone_strategy.is_worktree then
    match createDir fs g.path with
    | .error e => .error e
    | .ok fs' =>
      let bare := Path.join g.path ".bare"
      if cloneOk bare then .ok (bare :: fs', [.createdDir g.path, .cloned bare])
      else .error (.transport "Tried cloning project")
  else
    if cloneOk g.path then .ok (g.path :: fs, [.cloned g.path])
    else .error (.transport "Tried cloning project")

/-- The diagnosis report of `doctor` in src/lib.rs. -/
structure DoctorDiagnosis where
  missing_workspaces : List Path
  missing_projects : List Path
deriving DecidableEq

/-- `doctor`: the declared paths that do not exist on the filesystem (the Rust
function returns `Result` but never fails). -/
def doctor (fs : FS) (c : Config) : DoctorDiagnosis :=
  { missing_workspaces := c.collect_workspace_paths.filter (fun p => !fsExists fs p)
    missing_projects := c.collect_project_paths.filter (fun p => !fsExists fs p) }

/-- `RestoreOption` of src/lib.rs. -/
inductive RestoreOption
  | workspace (ws_path : Path) (include_projects : Bool)
  | allWorkspaces (include_projects : Bool)
  | project (proj_path : Path)

/-- The normalisation both the workspace and the project arm of `restore`
perform: paths not under the config root are joined onto it. -/
def normPath (c : Config) (p : Path) : Path :=
  let rootP := Path.ofString c.root
  if rootP.isPrefixOf p then p else Path.joinPath rootP p

/-- `restore_project` of src/lib.rs. -/
def restore_project (cloneOk : Path → Bool) (c : Config) (fs : FS) (proj_path : Path) :
    Except Err (FS × List Effect) :=
  if proj_path ∈ fs then .ok (fs, [])
  else
    match c.lookup_project proj_path with
    | .error e => .error e
    | .ok project =>
      match project.git with
      | none =>
        match createDir fs proj_path with
        | .error e => .error e
        | .ok fs' => .ok (fs', [.createdDir proj_path])
      | some proj_git => Git.clone cloneOk fs (Git.new proj_path proj_git)

/-- The `for project in ws.collect_project_paths(..)` loop of the workspace
arm, with the fail-fast `?` propagation. -/
def restoreProjects (cloneOk : Path → Bool) (c : Config) :
    List Path → FS × List Effect → Except Err (FS × List Effect)
  | [], acc => .ok acc
  | p :: ps, acc =>
    match restore_project cloneOk c acc.1 p with
    | .error e => .error e
    | .ok r => restoreProjects cloneOk c ps (r.1, acc.2 ++ r.2)

/-- The `RestoreOption::Workspace` arm of `restore`.  It recomputes the
diagnosis on entry because in the source every (possibly recursive) `restore`
call starts by running `doctor`. -/
def restoreWorkspace (cloneOk : Path → Bool) (c : Config) (fs : FS) (ws_path : Path)
    (include_projects : Bool) : Except Err (FS × List Effect) :=
  let diagnosis := doctor fs c
  match c.lookup_workspace ws_path with
  | .error e => .error e
  | .ok ws =>
    let ws_path := normPath c ws_path
    let step1 : Except Err (FS × List Effect) :=
      if ws_path ∈ diagnosis.missing_workspaces then
        match createDir fs ws_path with
        | .error e => .error e
        | .ok fs' => .ok (fs', [.createdDir ws_path])
      else .ok (fs, [])
    match step1 with
    | .error e => .error e
    | .ok acc =>
      if include_projects then restoreProjects cloneOk c (ws.collect_project_paths ws_path) acc
      else .ok acc

/-- The `for ws_path in diagnosis.missing_workspaces` loop of the
all-workspaces arm; each iteration is a full recursive `restore` call on the
workspace target. -/
def restoreAll (cloneOk : Path → Bool) (c : Config) (include_projects : Bool) :
    List Path → FS × List Effect → Except Err (FS × List Effect)
  | [], acc => .ok acc
  | w :: ws, acc =>
    match restoreWorkspace cloneOk c acc.1 w include_projects with
    | .error e => .error e
    | .ok r => restoreAll cloneOk c include_projects ws (r.1, acc.2 ++ r.2)

/-- `restore` of src/lib.rs.  The workspace arm is `restoreWorkspace`; the
recursive calls of the other two arms go to that same arm, so the recursion of
the source is unfolded into the two loop helpers above. -/
def restore (cloneOk : Path → Bool) (c : Config) (fs : FS) :
    RestoreOption → Except Err (FS × List Effect)
  | .workspace ws_path include_projects => restoreWorkspace cloneOk c fs ws_path include_projects
  | .allWorkspaces include_projects =>
    let diagnosis := doctor fs c
    restoreAll cloneOk c include_projects diagnosis.missing_workspaces (fs, [])
  | .project proj_path =>
    let diagnosis := doctor fs c
    match Path.parent proj_path with
    | none => .error .panic
    | some par =>
      match restoreWorkspace cloneOk c fs par false with
      | .error e => .error e
      | .ok acc =>
        let proj_path := normPath c proj_path
        if proj_path ∈ diagnosis.missing_projects then
          match restore_project cloneOk c acc.1 proj_path with
          | .error e => .error e
          | .ok r => .ok (r.1, acc.2 ++ r.2)
        else .ok acc

/-! ## Credential negotiation (Git::with_creds, src/git.rs)

The git2 transport is an external capability.  Modelled from the spec: the
transport exposes `attempt(url, credentialCallback)` and invokes the callback
zero or more times per attempt, each time declaring which credential kinds it
currently accepts; a returned credential it does not accept, or a callback
error, leads to the next prompt, an accepted bare username is recorded and
negotiation continues, any other accepted credential completes the attempt, and
an exhausted prompt list fails the attempt. -/

/-- The set of credential kinds a single callback invocation declares
acceptable (`git2::CredentialType`). -/
structure Allowed where
  username : Bool
  sshKey : Bool
  userPassPlaintext : Bool
  default : Bool
deriving DecidableEq

/-- The credentials the code can produce (`git2::Cred`). -/
inductive Cred
  | username (u : String)
  | sshKeyFromAgent (u : String)
  | fromCredHelper
  | defaultCred
deriving DecidableEq

/-- git2-side errors; `panic` marks a Rust `unwrap`/`expect` failure. -/
inductive GitErr
  | msg (s : String)
  | panic
deriving DecidableEq

/-- The closure state of the first `with_creds` attempt. -/
structure FirstState where
  sshUsernameRequested : Bool
  credHelperBad : Bool
  anyAttempts : Bool
  triedSshkey : Bool
deriving DecidableEq

/-- `git2::Cred::credential_helper`: the OS credential helper is external, its
outcome is the parameter. -/
def credentialHelper (helperOk : Bool) : Except GitErr Cred :=
  if helperOk then .ok .fromCredHelper else .error (.msg "credential helper failed")

/-- The credential callback of the first clone attempt in `Git::with_creds`:
bare-username prompts flag a retry, an SSH key is offered once from the agent,
then the credential helper is consulted until it fails once, then default
credentials, then the attempt fails. -/
def firstCallback (helperOk : Bool) (s : FirstState) (username : Option String)
    (allowed : Allowed) : FirstState × Except GitErr Cred :=
  let s := { s with anyAttempts := true }
  if allowed.username then
    ({ s with sshUsernameRequested := true }, .error (.msg "gonna try usernames later"))
  else if allowed.sshKey && !s.triedSshkey then
    let s := { s with triedSshkey := true }
    match username with
    | some u => (s, .ok (.sshKeyFromAgent u))
    | none => (s, .error .panic)
  else if allowed.userPassPlaintext && !s.credHelperBad then
    ({ s with credHelperBad := !helperOk }, credentialHelper helperOk)
  else if allowed.default then
    (s, .ok .defaultCred)
  else
    (s, .error (.msg "no authentication methods succeeded"))

/-- The credential callback of one username-retry attempt: hand out the
candidate username when asked, and offer the agent's SSH key on exactly the
second ssh-or-password prompt, counting prompts in `attempts`. -/
def retryCallback (u : String) (attempts : Nat) (username : Option String)
    (allowed : Allowed) : Nat × Except GitErr Cred :=
  if allowed.username then (attempts, .ok (.username u))
  else if allowed.sshKey || allowed.userPassPlaintext then
    let attempts := attempts + 1
    if attempts = 2 then
      match username with
      | some uu => (attempts, .ok (.sshKeyFromAgent uu))
      | none => (attempts, .error .panic)
    else (attempts, .error (.msg "no authentication available"))
  else (attempts, .error (.msg "no authentication available"))

/-- Modelled from the spec: one transport attempt over its list of prompts.
`accept` is the transport's judgement of an offered credential, `uname` the
username the transport currently knows (it passes it to the callback and
updates it when it accepts a bare username). -/
def runAttempt (accept : Cred → Bool)
    (cb : σ → Option String → Allowed → σ × Except GitErr Cred) :
    List Allowed → Option String → σ → σ × Except GitErr Unit
  | [], _, s => (s, .error (.msg "no authentication methods succeeded"))
  | q :: qs, uname, s =>
    let r := cb s uname q
    match r.2 with
    | .error _ => runAttempt accept cb qs uname r.1
    | .ok (.username v) =>
      if accept (.username v) then runAttempt accept cb qs (some v) r.1
      else runAttempt accept cb qs uname r.1
    | .ok c => if accept c then (r.1, .ok ()) else runAttempt accept cb qs uname r.1

/-- Modelled from the spec: a transport capability, given per URL by its prompt
sequence, its acceptance judgement, and the username it knows up front (for an
SSH URL, the one embedded in it). -/
structure Transport where
  queries : String → List Allowed
  accept : String → Cred → Bool
  knownUsername : String → Option String

def GitHost.toDomain : GitHost → String
  | .gitHub => "github.com"
  | .gitLab => "gitlab.com"

/-- `GitHost::to_url`. -/
def GitHost.to_url (h : GitHost) (proto : GitCloneProtocol) (repo : String)
    (user : Option String) : String :=
  match proto with
  | .https => "https://" ++ h.toDomain ++ "/" ++ repo ++ ".git"
  | .ssh => user.getD "git" ++ "@" ++ h.toDomain ++ ":" ++ repo ++ ".git"

/-- The candidate username vector as `with_creds` builds it: literal "git", the
hard-coded fallback identity, then the environment's current user if set, then
reversed because the loop pops from the back. -/
def attemptsVec (envUser : Option String) : List String :=
  (["git", "Will Czifro"] ++ envUser.toList).reverse

/-- The `while let Some(u) = attempts.pop()` loop of `with_creds`, acting on
the already-reversed vector so that popping from the back is recursion on the
front.  `runFor u` is the whole retry attempt for candidate `u`, returning the
final prompt counter and the attempt result; the loop stops early exactly when
that counter differs from 2. -/
def usernameLoop (runFor : String → Nat × Except GitErr Unit) :
    List String → Except GitErr Unit → Except GitErr Unit
  | [], res => res
  | u :: rest, _ =>
    let r := runFor u
    if r.1 ≠ 2 then r.2 else usernameLoop runFor rest r.2

/-- One whole retry attempt for candidate username `u`. -/
def retryAttempt (t : Transport) (g : Git) (u : String) : Nat × Except GitErr Unit :=
  let url := g.host.to_url g.protocol g.repo (some u)
  runAttempt (t.accept url) (retryCallback u) (t.queries url) (t.knownUsername url) 0

/-- The first attempt of `with_creds`, against the username-less URL. -/
def firstAttempt (t : Transport) (helperOk : Bool) (g : Git) :
    FirstState × Except GitErr Unit :=
  let url := g.host.to_url g.protocol g.repo none
  runAttempt (t.accept url) (firstCallback helperOk) (t.queries url) (t.knownUsername url)
    ⟨false, false, false, false⟩

/-- `Git::with_creds`: run the first attempt; if it ever saw a bare-username
prompt, rerun the attempt over the candidate usernames. -/
def with_creds (t : Transport) (helperOk : Bool) (envUser : Option String) (g : Git) :
    Except GitErr Unit :=
  let fr := firstAttempt t helperOk g
  if fr.1.sshUsernameRequested then
    usernameLoop (retryAttempt t g) (attemptsVec envUser).reverse fr.2
  else fr.2

/-! ## Progress reporter (mod progress in src/git.rs)

Wall-clock throttling is external state; the throttle's verdict enters as a
boolean.  The terminal width is the constant 80 the shell module reports on
unix.  Character display widths (`unicode_width`) are taken as 1, which is
exact for the ASCII messages the code formats.  f64 percentages become exact
rationals: for `itemsTotal > 0` the ratio of two usize values is finite, and
for `itemsTotal = 0` the ratio is non-finite and the code replaces it by 0. -/

/-- The percentage after the non-finite guard: `cur/max` is non-finite exactly
when `max = 0` (NaN for 0/0, infinite otherwise), and then replaced by 0. -/
def effectivePct (cur max : Nat) : Rat :=
  if max = 0 then 0 else (cur : Rat) / (max : Rat)

/-- Rust `format!("{:6.02}", x)` for a non-negative value: two rounded decimal
digits, left-padded with spaces to width 6. -/
def fmtF2 (x : Rat) : String :=
  let n : Int := (x * 100 + 1 / 2).floor
  let ip := toString (n / 100)
  let fpn := (n % 100).toNat
  let fp := (if fpn < 10 then "0" else "") ++ toString fpn
  let s := ip ++ "." ++ fp
  String.mk (List.replicate (6 - s.length) ' ') ++ s

/-- The `Format` struct of the progress module. -/
structure Format where
  max_width : Nat
  max_print : Nat
deriving DecidableEq

def Format.width (f : Format) : Nat := min f.max_width f.max_print

/-- `Format::progress`: the `[===>   ] xx.xx%` prefix, `none` when the
available width is too small, and a panic (the leading `assert!`) when
`cur > max`. -/
def Format.progress (f : Format) (cur max : Nat) : Except String (Option String) :=
  if !decide (cur ≤ max) then .error "assertion failed: cur <= max"
  else
    let pct := effectivePct cur max
    let stats := " " ++ fmtF2 (pct * 100) ++ "%"
    let extra_len := stats.length + 2 + 15
    if f.width < extra_len then .ok none
    else
      let display_width := f.width - extra_len
      let hashes := ((display_width : Rat) * pct).floor.toNat
      let bar :=
        if hashes > 0 then
          String.mk (List.replicate (hashes - 1) '=') ++ (if cur = max then "=" else ">")
        else ""
      .ok (some ("[" ++ bar ++ String.mk (List.replicate (display_width - hashes) ' ')
        ++ "]" ++ stats))

/-- `Format::render`: append the detail message, truncating with an ellipsis
where it stops fitting (character widths taken as 1). -/
def renderLoop (cs : List Char) (s : String) (avail ellipsis_pos : Nat) : String :=
  match cs with
  | [] => s
  | c :: rest =>
    if 1 ≤ avail then
      let s := s.push c
      let avail := avail - 1
      let ellipsis_pos := if avail ≥ 3 then s.length else ellipsis_pos
      renderLoop rest s avail ellipsis_pos
  else String.mk (s.toList.take ellipsis_pos) ++ "..."

def Format.render (f : Format) (s : String) (msg : String) : String :=
  let avail_msg_len := f.max_width - s.length - 15
  if avail_msg_len ≤ 3 then s
  else renderLoop msg.toList s avail_msg_len 0

/-- The mutable state of the progress reporter (`State` plus the shell's
clear flag; `name` and the throttle's instants carry no logic here). -/
structure ProgressState where
  done : Bool
  last_line : Option String
  max_width : Nat
  max_print : Nat
  needs_clear : Bool
deriving DecidableEq

/-- `State::print`: render the full line, pad it, and emit it unless it
matches the last drawn line on an uncleared terminal.  Returns the possibly
emitted line. -/
def statePrint (st : ProgressState) (pbar msg : String) : ProgressState × Option String :=
  let st := { st with max_width := 80 }
  if st.max_width < 15 then (st, none)
  else
    let line := Format.render ⟨st.max_width, st.max_print⟩ pbar msg
    let line := line ++ String.mk (List.replicate (st.max_width - 15 - line.length) ' ')
    if !st.needs_clear || st.last_line ≠ some line then
      ({ st with needs_clear := true, last_line := some line }, some line)
    else (st, none)

/-- `State::tick`: ignore samples once done, mark completion, and render. -/
def stateTick (st : ProgressState) (cur max : Nat) (msg : String) :
    Except String (ProgressState × Option String) :=
  if st.done then .ok (st, none)
  else
    let st := if max > 0 && cur == max then { st with done := true } else st
    let st := { st with max_width := 80 }
    match Format.progress ⟨st.max_width, st.max_print⟩ cur max with
    | .error e => .error e
    | .ok none => .ok (st, none)
    | .ok (some pbar) => .ok (statePrint st pbar msg)

/-- `Progress::tick`: the throttle gate, whose wall-clock verdict is the
`allowed` parameter, in front of `State::tick`. -/
def progressTick (allowed : Bool) (st : ProgressState) (cur max : Nat) (msg : String) :
    Except String (ProgressState × Option String) :=
  if !allowed then .ok (st, none) else stateTick st cur max msg

/-! ## Transfer-rate counter (MetricsCounter in src/git.rs)

Timestamps are rational seconds; `Instant` subtraction saturates at zero.  The
f32 arithmetic of `rate` is exact on the values involved except for the
non-finite outcomes, which the value type carries explicitly.  The byte-count
difference is computed in ℤ: it matches the usize subtraction of the source on
the monotone counters the code feeds in (`received_bytes` never decreases). -/

inductive F32
  | finite (q : Rat)
  | posInf
  | negInf
  | nan
deriving DecidableEq

/-- f32 division of a byte difference by a duration: division by a zero
duration is non-finite (NaN for 0/0, signed infinity otherwise). -/
def f32div (n : Int) (d : Rat) : F32 :=
  if d = 0 then (if n = 0 then .nan else if 0 < n then .posInf else .negInf)
  else .finite (n / d)

/-- `MetricsCounter<10>`: ten slots of (byte count, timestamp). -/
structure MetricsCounter where
  slots : List (Nat × Rat)
  index : Nat
deriving DecidableEq

def MetricsCounter.new (init : Nat) (init_at : Rat) : MetricsCounter :=
  ⟨List.replicate 10 (init, init_at), 0⟩

/-- `MetricsCounter::add`: overwrite the oldest slot, advance the index. -/
def MetricsCounter.add (c : MetricsCounter) (data : Nat) (added_at : Rat) : MetricsCounter :=
  ⟨c.slots.set c.index (data, added_at), (c.index + 1) % 10⟩

/-- The newest record: `slots[index.checked_sub(1).unwrap_or(N-1)]`. -/
def MetricsCounter.latest (c : MetricsCounter) : Nat × Rat :=
  c.slots.getD (if c.index = 0 then 9 else c.index - 1) (0, 0)

/-- The oldest record: `slots[index]`. -/
def MetricsCounter.oldest (c : MetricsCounter) : Nat × Rat :=
  c.slots.getD c.index (0, 0)

/-- `MetricsCounter::rate`: the average over the ring, with only the NaN
outcome replaced by 0. -/
def MetricsCounter.rate (c : MetricsCounter) : F32 :=
  let latest := c.latest
  let oldest := c.oldest
  let duration : Rat := max 0 (latest.2 - oldest.2)
  let avg := f32div ((latest.1 : Int) - (oldest.1 : Int)) duration
  match avg with
  | .nan => .finite 0
  | v => v

/-! ## Config parsing (Config::from_str, src/config.rs)

The YAML surface of serde_yaml reduced to what the schema uses: scalars,
null and mappings.  The derived deserializers follow the standard serde
semantics the structs in src/config.rs declare: a field whose type is not
`Option` must be present (there is no `#[serde(default)]`), an `Option` field
may be absent or null, unknown keys are ignored, enums deserialize from their
renamed lowercase strings, and `ProjectGitSettings` takes `repo` and its
flattened `core_settings` from the same mapping. -/

inductive Yaml
  | null
  | str (s : String)
  | map (entries : List (String × Yaml))

def Yaml.getField (entries : List (String × Yaml)) (k : String) : Option Yaml :=
  lookupKey entries k

def deserGitHost : Yaml → Except Err GitHost
  | .str "github" => .ok .gitHub
  | .str "gitlab" => .ok .gitLab
  | _ => .error (.parse "invalid value for GitHost")

def deserGitCloneProtocol : Yaml → Except Err GitCloneProtocol
  | .str "https" => .ok .https
  | .str "ssh" => .ok .ssh
  | _ => .error (.parse "invalid value for GitCloneProtocol")

def deserGitCloneStrategy : Yaml → Except Err GitCloneStrategy
  | .str "worktree" => .ok .worktree
  | .str "branch" => .ok .branch
  | _ => .error (.parse "invalid value for GitCloneStrategy")

/-- An `Option<T>` field: absent or null is `None`. -/
def deserOptField (f : Yaml → Except Err α) (entries : List (String × Yaml)) (k : String) :
    Except Err (Option α) :=
  match Yaml.getField entries k with
  | none => .ok none
  | some .null => .ok none
  | some v => (f v).map some

/-- The three optional fields of `GitConfig`, read from a mapping (used both
for the struct itself and for the `#[serde(flatten)]` inside
`ProjectGitSettings`). -/
def deserGitConfigFields (entries : List (String × Yaml)) : Except Err GitConfig :=
  match deserOptField deserGitCloneStrategy entries "clone_strategy" with
  | .error e => .error e
  | .ok cs =>
    match deserOptField deserGitCloneProtocol entries "protocol" with
    | .error e => .error e
    | .ok proto =>
      match deserOptField deserGitHost entries "host" with
      | .error e => .error e
      | .ok h => .ok ⟨cs, proto, h⟩

def deserGitConfig : Yaml → Except Err GitConfig
  | .map entries => deserGitConfigFields entries
  | _ => .error (.parse "invalid type: expected struct GitConfig")

def deserProjectGitSettings : Yaml → Except Err ProjectGitSettings
  | .map entries =>
    (match Yaml.getField entries "repo" with
     | some (.str r) =>
       match deserGitConfigFields entries with
       | .error e => .error e
       | .ok core => .ok ⟨r, core⟩
     | some _ => .error (.parse "invalid type for field: repo")
     | none => .error (.parse "missing field: repo"))
  | _ => .error (.parse "invalid type: expected struct ProjectGitSettings")

def deserProject : Yaml → Except Err Project
  | .map entries =>
    (match deserOptField deserProjectGitSettings entries "git" with
     | .error e => .error e
     | .ok g => .ok ⟨g⟩)
  | _ => .error (.parse "invalid type: expected struct Project")

def deserStringMap (f : Yaml → Except Err α) :
    List (String × Yaml) → Except Err (List (String × α))
  | [] => .ok []
  | (k, v) :: rest =>
    match f v with
    | .error e => .error e
    | .ok a =>
      match deserStringMap f rest with
      | .error e => .error e
      | .ok tail => .ok ((k, a) :: tail)

def deserWorkspace : Yaml → Except Err Workspace
  | .map entries =>
    (match Yaml.getField entries "projects" with
     | none => .error (.parse "missing field: projects")
     | some (.map pentries) =>
       match deserStringMap deserProject pentries with
       | .error e => .error e
       | .ok projects =>
         match deserOptField deserGitConfig entries "git" with
         | .error e => .error e
         | .ok g => .ok ⟨projects, g⟩
     | some _ => .error (.parse "invalid type for field: projects"))
  | _ => .error (.parse "invalid type: expected struct Workspace")

/-- The derived `Deserialize` for `Config`: `root`, `git` and `workspaces` are
all required, because none of them is an `Option` in src/config.rs. -/
def deserConfig : Yaml → Except Err Config
  | .map entries =>
    (match Yaml.getField entries "root" with
     | none => .error (.parse "missing field: root")
     | some (.str root) =>
       match Yaml.getField entries "git" with
       | none => .error (.parse "missing field: git")
       | some gv =>
         match deserGitConfig gv with
         | .error e => .error e
         | .ok g =>
           match Yaml.getField entries "workspaces" with
           | none => .error (.parse "missing field: workspaces")
           | some (.map wentries) =>
             match deserStringMap deserWorkspace wentries with
             | .error e => .error e
             | .ok workspaces => .ok ⟨root, g, workspaces⟩
           | some _ => .error (.parse "invalid type for field: workspaces")
     | some _ => .error (.parse "invalid type for field: root"))
  | _ => .error (.parse "invalid type: expected struct Config")

/-- `Config::from_str`: deserialize, make the root absolute, overlay the git
settings onto every workspace. -/
def Config.from_str (home : String) (y : Yaml) : Except Err Config :=
  match deserConfig y with
  | .error e => .error e
  | .ok c => .ok (overlayConfig home c)

/-! ## Concrete instances used in the theorems below -/

/-- A key that is a single path component, as `HashMap` keys of a sane config
are: splitting it on '/' returns it unchanged, and it is nonempty. -/
def simpleName (s : String) : Prop := Path.ofString s = [s] ∧ s ≠ ""

instance (s : String) : Decidable (simpleName s) := by
  unfold simpleName; infer_instance

/-- Config with root `/r` and a single empty workspace `w0`. -/
def cfg7 : Config :=
  { root := "/r", git := ⟨none, none, none⟩
    workspaces := [("w0", { projects := [], git := none })] }

/-- The §8 scenario config: root `/r`, workspace `w0`, bare project `p0`. -/
def cfgS : Config :=
  { root := "/r", git := ⟨none, none, none⟩
    workspaces := [("w0", { projects := [("p0", ⟨none⟩)], git := none })] }

/-- A config-file input that declares `root` and `workspaces` but omits the
top-level `git` mapping, as the repository's own tests do. -/
def yamlNoGit : Yaml :=
  .map [("root", .str "/some/root"),
        ("workspaces", .map [("w0", .map [("projects", .map [("p0", .map [])])])])]

/-- An SSH-protocol clone target used for the credential scenarios. -/
def gC : Git := ⟨Path.ofString "/r/w0/p0", "o/r", .gitHub, .branch, .ssh⟩

/-- The §8 stub prompt sequence: bare username first, then two ssh prompts. -/
def stubQueries : List Allowed :=
  [⟨true, false, false, false⟩, ⟨false, true, false, false⟩, ⟨false, true, false, false⟩]

/-- A stub transport that accepts the username "git" and the agent key for
"git", and rejects every credential of every other candidate. -/
def tC : Transport :=
  { queries := fun _ => stubQueries
    accept := fun url c =>
      url == "git@github.com:o/r.git"
        && (c == .username "git" || c == .sshKeyFromAgent "git")
    knownUsername := fun url =>
      if url == "git@github.com:o/r.git" then some "git" else some "Will Czifro" }

/-- Workspace used by the C4 witness: protocol set to ssh, rest unset. -/
def ws4 : Workspace :=
  { projects := [("p0", ⟨some ⟨"o/r", ⟨some .worktree, none, none⟩⟩⟩)]
    git := some ⟨none, some .ssh, none⟩ }

/-- Project git settings used by the C4 witness: worktree strategy, rest
unset. -/
def pg4 : ProjectGitSettings := ⟨"o/r", ⟨some .worktree, none, none⟩⟩

/-- Config used by the C4 witness: nothing set at the top level. -/
def cfg4 : Config :=
  { root := "/r", git := ⟨none, none, none⟩, workspaces := [("w0", ws4)] }

/-- Per-candidate attempt outcomes used by the C2 witness: candidate "git"
ends with prompt counter 1 and success, every other candidate would end with
counter 2. -/
def runForW : String → Nat × Except GitErr Unit :=
  fun u => if u = "git" then (1, .ok ()) else (2, .error (.msg "no authentication available"))

/-- Config for the C10 witness: workspace `a` (project `x`) and workspace `b`
(project `y`). -/
def cfgT : Config :=
  { root := "/r", git := ⟨none, none, none⟩
    workspaces := [("a", { projects := [("x", ⟨none⟩)], git := none }),
                   ("b", { projects := [("y", ⟨none⟩)], git := none })] }

/-- Filesystem for the C10 witness: the root and workspace `a` exist, project
`a/x` and workspace `b` do not. -/
def fsT : FS := [Path.ofString "/r", Path.ofString "/r/a"]

/-! ## Theorems -/

theorem join_simple (parent : Path) (n : String) (h : simpleName n) :
    Path.join parent n = parent ++ [n] := by
  unfold Path.join Path.joinPath Path.isAbs
  rw [h.1]
  simp only [List.head?]
  rw [if_neg]
  simp only [Option.some.injEq, beq_iff_eq]
  exact h.2

/-- C6: the claim says a config source that declares root and workspaces but
omits the top-level `git` mapping loads successfully; with `Config.git` a
non-`Option` field and no serde default, deserialization instead fails with a
parse error.  The repository's own tests assert `is_ok` on exactly such an
input, so this is a bug in the code. -/
theorem C6_from_str_missing_git :
    Config.from_str "/home/user" yamlNoGit = .error (.parse "missing field: git") := rfl

/-- C9 counterexample: a ring state whose newest and oldest samples are one
add apart with equal timestamps and different byte counts has a zero duration,
but the displayed rate is positive infinity, not the 0 the claim requires. -/
theorem C9_counterexample :
    ((MetricsCounter.new 0 0).add 100 0).rate = F32.posInf
    ∧ F32.posInf ≠ F32.finite 0 := by
  constructor
  · simp only [MetricsCounter.rate, MetricsCounter.new, MetricsCounter.add,
      MetricsCounter.latest, MetricsCounter.oldest]
    norm_num [List.replicate, f32div]
  · decide

/-- C9 amended: for every ring state with a monotone byte counter, the rate is
(newest.count − oldest.count)/(newest.time − oldest.time); it is 0 only in the
NaN case (zero count difference over zero duration), while a zero duration
with a positive count difference yields positive infinity, which is returned
as is. -/
theorem C9_rate_characterisation (c : MetricsCounter)
    (h : c.oldest.1 ≤ c.latest.1) :
    c.rate =
      if c.latest.2 - c.oldest.2 ≤ 0 then
        (if c.latest.1 = c.oldest.1 then F32.finite 0 else F32.posInf)
      else F32.finite ((((c.latest.1 : Int) - (c.oldest.1 : Int) : Int) : Rat)
        / (c.latest.2 - c.oldest.2)) := by
  simp only [MetricsCounter.rate]
  rcases le_or_lt (c.latest.2 - c.oldest.2) 0 with hd | hd
  · rw [max_eq_left hd, if_pos hd]
    by_cases he : c.latest.1 = c.oldest.1
    · have hzn : ((c.latest.1 : Int) - (c.oldest.1 : Int)) = 0 := by omega
      rw [if_pos he]
      unfold f32div
      rw [if_pos rfl, if_pos hzn]
    · have hpos : (0 : Int) < (c.latest.1 : Int) - (c.oldest.1 : Int) := by omega
      rw [if_neg he]
      unfold f32div
      rw [if_pos rfl, if_neg (by omega), if_pos hpos]
  · rw [max_eq_right hd.le, if_neg (not_le.mpr hd)]
    unfold f32div
    rw [if_neg hd.ne']

/-- C9 witness: a concrete monotone ring state with a one-second duration. -/
theorem C9_witness :
    ((MetricsCounter.new 0 0).add 100 1).rate = F32.finite 100 := by
  have h : (((MetricsCounter.new 0 0).add 100 1).oldest).1
      ≤ (((MetricsCounter.new 0 0).add 100 1).latest).1 := by
    simp [MetricsCounter.new, MetricsCounter.add, MetricsCounter.latest,
      MetricsCounter.oldest, List.replicate]
  rw [C9_rate_characterisation _ h]
  norm_num [MetricsCounter.new, MetricsCounter.add, MetricsCounter.latest,
    MetricsCounter.oldest, List.replicate]

/-- C8 counterexample: a progress sample with itemsTotal = 0 and itemsDone = 1
does not complete the render; the `assert!(cur <= max)` at the top of
`Format::progress` fails. -/
theorem C8_counterexample :
    progressTick true ⟨false, none, 80, 50, false⟩ 1 0 ""
      = .error "assertion failed: cur <= max" := rfl

theorem format_progress_ok (f : Format) (cur max : Nat) (h : cur ≤ max) :
    ∃ o, f.progress cur max = .ok o := by
  unfold Format.progress
  rw [if_neg (by simpa using h)]
  dsimp only
  split
  · exact ⟨none, rfl⟩
  · exact ⟨_, rfl⟩

theorem stateTick_ok (st : ProgressState) (cur max : Nat) (msg : String) (h : cur ≤ max) :
    ∃ r, stateTick st cur max msg = .ok r := by
  unfold stateTick
  split
  · exact ⟨_, rfl⟩
  · split
    · dsimp only
      obtain ⟨o, ho⟩ := format_progress_ok ⟨80, st.max_print⟩ cur max h
      rw [ho]
      cases o with
      | none => exact ⟨_, rfl⟩
      | some pbar => exact ⟨_, rfl⟩
    · dsimp only
      obtain ⟨o, ho⟩ := format_progress_ok ⟨80, st.max_print⟩ cur max h
      rw [ho]
      cases o with
      | none => exact ⟨_, rfl⟩
      | some pbar => exact ⟨_, rfl⟩

/-- C8 amended: a sample with itemsTotal = 0 renders as 0% and completes
whenever itemsDone = 0 (the only itemsDone the assertion admits at total 0);
for every itemsDone > 0 the renderer panics on `assert!(cur <= max)` instead
of completing. -/
theorem C8_zero_total (st : ProgressState) (msg : String) (allowed : Bool) :
    effectivePct 0 0 = 0
    ∧ (∃ r, progressTick allowed st 0 0 msg = .ok r)
    ∧ (∀ d, 0 < d → st.done = false →
        progressTick true st d 0 msg = .error "assertion failed: cur <= max") := by
  refine ⟨rfl, ?_, ?_⟩
  · unfold progressTick
    split
    · exact ⟨_, rfl⟩
    · exact stateTick_ok st 0 0 msg le_rfl
  · intro d hd hdone
    have hassert : Format.progress ⟨80, st.max_print⟩ d 0
        = .error "assertion failed: cur <= max" := by
      unfold Format.progress
      rw [if_pos (by simp only [Bool.not_eq_true', decide_eq_false_iff_not]; omega)]
    unfold progressTick
    rw [if_neg (by simp)]
    unfold stateTick
    rw [if_neg (by simp [hdone])]
    have hup : (if (0 : Nat) > 0 && d == 0 then { st with done := true } else st) = st := by
      simp
    rw [hup]
    dsimp only
    rw [hassert]

/-- C8 witness: the panic conjunct of `C8_zero_total` at a concrete state and
sample. -/
theorem C8_witness :
    progressTick true ⟨false, none, 80, 50, false⟩ 2 0 "x"
      = .error "assertion failed: cur <= max" :=
  (C8_zero_total ⟨false, none, 80, 50, false⟩ "x" true).2.2 2 (by decide) rfl

/-- C7 counterexample: the claim says every path not rooted under the config
root fails to look up; yet the bare relative path "w0", which is not rooted
under "/r" and equals no declared node's filesystem path, succeeds, because
`lookup_workspace` only strips the root prefix when it is present and then
matches the raw remainder against the keys. -/
theorem C7_counterexample :
    cfg7.lookup_workspace (Path.ofString "w0") = .ok { projects := [], git := none }
    ∧ (Path.ofString cfg7.root).isPrefixOf (Path.ofString "w0") = false
    ∧ Path.ofString "w0" ∉ cfg7.collect_workspace_paths := by
  refine ⟨rfl, rfl, ?_⟩
  decide

/-- C7 amended: `lookupWorkspace` fails with a NotFoundError exactly on the
paths whose root-stripped remainder spells no declared workspace key (so a
relative key chain succeeds even though it is not rooted under root), and
`lookupProject` fails whenever its parent lookup fails, whenever the final
component is not a declared project of the parent workspace, or — with a
non-NotFound error — when the path has no parent at all. -/
theorem C7_lookup_characterisation (c : Config) (p : Path) :
    (lookupKey c.workspaces (Path.toStr (c.stripRoot p)) = none →
      c.lookup_workspace p
        = .error (.notFound ("Could not find workspace: " ++ Path.toStr (c.stripRoot p))))
    ∧ (Path.parent p = none →
      c.lookup_project p = .error (.other "Expected project path to be sub path to workspace"))
    ∧ (∀ par, Path.parent p = some par →
        ∀ e, c.lookup_workspace par = .error e → c.lookup_project p = .error e)
    ∧ (∀ par, Path.parent p = some par →
        ∀ ws, c.lookup_workspace par = .ok ws →
        lookupKey ws.projects (Path.toStr (p.drop par.length)) = none →
        c.lookup_project p = .error (.notFound ("Could not find project: " ++ Path.toStr p))) := by
  refine ⟨?_, ?_, ?_, ?_⟩
  · intro hk
    unfold Config.lookup_workspace
    rw [hk]
  · intro hpar
    unfold Config.lookup_project
    rw [hpar]
  · intro par hpar e he
    unfold Config.lookup_project
    rw [hpar]
    dsimp only
    rw [he]
  · intro par hpar ws hws hk
    unfold Config.lookup_project
    rw [hpar]
    dsimp only
    rw [hws]
    dsimp only
    rw [hk]

/-- C7 witness: the not-found conjunct of the characterisation at a concrete
undeclared absolute path. -/
theorem C7_witness :
    cfg7.lookup_workspace (Path.ofString "/q")
      = .error (.notFound ("Could not find workspace: " ++ Path.toStr (cfg7.stripRoot (Path.ofString "/q")))) :=
  (C7_lookup_characterisation cfg7 (Path.ofString "/q")).1 (by decide)

/-- C3: the per-callback decision of the first clone attempt follows the fixed
priority: (1) a transport accepting a bare username gets the need-username
retry signal and never an invented credential; (2) otherwise a transport
accepting an SSH key, when none was tried yet this attempt, is offered the
agent's key for the given username; (3) otherwise plaintext user/password is
delegated to the OS credential helper unless it already failed this attempt,
recording a failure; (4) otherwise default credentials are offered when
accepted; (5) otherwise the attempt fails. -/
theorem C3_first_callback_priority (helperOk : Bool) (s : FirstState)
    (username : Option String) (allowed : Allowed) :
    (allowed.username = true →
      (firstCallback helperOk s username allowed).2 = .error (.msg "gonna try usernames later")
      ∧ (firstCallback helperOk s username allowed).1.sshUsernameRequested = true)
    ∧ (allowed.username = false → allowed.sshKey = true → s.triedSshkey = false →
        ∀ u, username = some u →
        (firstCallback helperOk s username allowed).2 = .ok (.sshKeyFromAgent u)
        ∧ (firstCallback helperOk s username allowed).1.triedSshkey = true)
    ∧ (allowed.username = false → (allowed.sshKey = false ∨ s.triedSshkey = true) →
        allowed.userPassPlaintext = true → s.credHelperBad = false →
        (firstCallback helperOk s username allowed).2 = credentialHelper helperOk
        ∧ (firstCallback helperOk s username allowed).1.credHelperBad = !helperOk)
    ∧ (allowed.username = false → (allowed.sshKey = false ∨ s.triedSshkey = true) →
        (allowed.userPassPlaintext = false ∨ s.credHelperBad = true) → allowed.default = true →
        (firstCallback helperOk s username allowed).2 = .ok .defaultCred)
    ∧ (allowed.username = false → (allowed.sshKey = false ∨ s.triedSshkey = true) →
        (allowed.userPassPlaintext = false ∨ s.credHelperBad = true) → allowed.default = false →
        (firstCallback helperOk s username allowed).2
          = .error (.msg "no authentication methods succeeded")) := by
  unfold firstCallback
  refine ⟨?_, ?_, ?_, ?_, ?_⟩
  · intro h1
    simp [h1]
  · intro h1 h2 h3 u hu
    simp [h1, h2, h3, hu]
  · intro h1 h2 h3 h4
    rcases h2 with h2 | h2 <;> simp [h1, h2, h3, h4]
  · intro h1 h2 h3 h4
    rcases h2 with h2 | h2 <;> rcases h3 with h3 | h3 <;> simp [h1, h2, h3, h4]
  · intro h1 h2 h3 h4
    rcases h2 with h2 | h2 <;> rcases h3 with h3 | h3 <;> simp [h1, h2, h3, h4]

/-- C3 witness: the five decisions at concrete states: a username prompt gets
the retry signal, an ssh prompt gets the agent key, a user/pass prompt is
delegated to the helper, a default-only prompt gets default credentials, and
an empty prompt fails. -/
theorem C3_witness :
    (firstCallback true ⟨false, false, false, false⟩ none ⟨true, false, false, false⟩).2
      = .error (.msg "gonna try usernames later")
    ∧ (firstCallback true ⟨false, false, false, false⟩ (some "git")
        ⟨false, true, false, false⟩).2 = .ok (.sshKeyFromAgent "git")
    ∧ (firstCallback false ⟨false, false, false, false⟩ none
        ⟨false, false, true, false⟩).2 = credentialHelper false
    ∧ (firstCallback true ⟨false, false, false, true⟩ none
        ⟨false, false, false, true⟩).2 = .ok .defaultCred
    ∧ (firstCallback true ⟨false, true, false, true⟩ none
        ⟨false, false, false, false⟩).2 = .error (.msg "no authentication methods succeeded") :=
  ⟨((C3_first_callback_priority true ⟨false, false, false, false⟩ none
      ⟨true, false, false, false⟩).1 rfl).1,
   ((C3_first_callback_priority true ⟨false, false, false, false⟩ (some "git")
      ⟨false, true, false, false⟩).2.1 rfl rfl rfl "git" rfl).1,
   ((C3_first_callback_priority false ⟨false, false, false, false⟩ none
      ⟨false, false, true, false⟩).2.2.1 rfl (Or.inl rfl) rfl rfl).1,
   (C3_first_callback_priority true ⟨false, false, false, true⟩ none
      ⟨false, false, false, true⟩).2.2.2.1 rfl (Or.inr rfl) (Or.inl rfl) rfl,
   (C3_first_callback_priority true ⟨false, true, false, true⟩ none
      ⟨false, false, false, false⟩).2.2.2.2 rfl (Or.inr rfl) (Or.inl rfl) rfl⟩

/-- C4: through the load-time overlay pass and `Git::new`, a host, protocol or
clone-strategy field explicitly set on a project is kept; a field unset on the
project but set on its workspace takes the workspace's value; and a field unset
at every level resolves to github/https/branch by the time the clone is
configured. -/
theorem C4_overlay_correct (c : Config) (home : String) (wn pn : String)
    (ws : Workspace) (p : Project) (pg : ProjectGitSettings) (path : Path)
    (hw : (wn, ws) ∈ c.workspaces) (hp : (pn, p) ∈ ws.projects) (hpg : p.git = some pg) :
    ∃ ws' p' pg',
      (wn, ws') ∈ (overlayConfig home c).workspaces
      ∧ (pn, p') ∈ ws'.projects
      ∧ p'.git = some pg'
      ∧ (∀ h, pg.core_settings.host = some h → (Git.new path pg').host = h)
      ∧ (∀ wg h, pg.core_settings.host = none → ws.git = some wg → wg.host = some h →
          (Git.new path pg').host = h)
      ∧ (pg.core_settings.host = none → (∀ wg, ws.git = some wg → wg.host = none) →
          c.git.host = none → (Git.new path pg').host = .gitHub)
      ∧ (∀ h, pg.core_settings.protocol = some h → (Git.new path pg').protocol = h)
      ∧ (∀ wg h, pg.core_settings.protocol = none → ws.git = some wg → wg.protocol = some h →
          (Git.new path pg').protocol = h)
      ∧ (pg.core_settings.protocol = none → (∀ wg, ws.git = some wg → wg.protocol = none) →
          c.git.protocol = none → (Git.new path pg').protocol = .https)
      ∧ (∀ h, pg.core_settings.clone_strategy = some h →
          (Git.new path pg').clone_strategy = h)
      ∧ (∀ wg h, pg.core_settings.clone_strategy = none → ws.git = some wg →
          wg.clone_strategy = some h → (Git.new path pg').clone_strategy = h)
      ∧ (pg.core_settings.clone_strategy = none →
          (∀ wg, ws.git = some wg → wg.clone_strategy = none) →
          c.git.clone_strategy = none → (Git.new path pg').clone_strategy = .branch) := by
  refine ⟨ws.overlay_git_config c.git,
    p.overlay_git_config (resolveGitConfig ws.git c.git),
    ⟨pg.repo,
      ⟨orO pg.core_settings.clone_strategy (resolveGitConfig ws.git c.git).clone_strategy,
       orO pg.core_settings.protocol (resolveGitConfig ws.git c.git).protocol,
       orO pg.core_settings.host (resolveGitConfig ws.git c.git).host⟩⟩,
    ?_, ?_, ?_, ?_, ?_, ?_, ?_, ?_, ?_, ?_, ?_, ?_⟩
  · unfold overlayConfig
    exact List.mem_map.mpr ⟨(wn, ws), hw, rfl⟩
  · unfold Workspace.overlay_git_config
    exact List.mem_map.mpr ⟨(pn, p), hp, rfl⟩
  · unfold Project.overlay_git_config
    rw [hpg]
  · intro h hh
    simp [Git.new, orO, hh]
  · intro wg h hnone hwsg hwgh
    simp [Git.new, resolveGitConfig, orO, hnone, hwsg, hwgh]
  · intro hnone hall hcg
    rcases hws : ws.git with _ | wg
    · simp [Git.new, resolveGitConfig, orO, hnone, hws, hcg]
    · simp [Git.new, resolveGitConfig, orO, hnone, hws, hcg, hall wg hws]
  · intro h hh
    simp [Git.new, orO, hh]
  · intro wg h hnone hwsg hwgh
    simp [Git.new, resolveGitConfig, orO, hnone, hwsg, hwgh]
  · intro hnone hall hcg
    rcases hws : ws.git with _ | wg
    · simp [Git.new, resolveGitConfig, orO, hnone, hws, hcg]
    · simp [Git.new, resolveGitConfig, orO, hnone, hws, hcg, hall wg hws]
  · intro h hh
    simp [Git.new, orO, hh]
  · intro wg h hnone hwsg hwgh
    simp [Git.new, resolveGitConfig, orO, hnone, hwsg, hwgh]
  · intro hnone hall hcg
    rcases hws : ws.git with _ | wg
    · simp [Git.new, resolveGitConfig, orO, hnone, hws, hcg]
    · simp [Git.new, resolveGitConfig, orO, hnone, hws, hcg, hall wg hws]

/-- C4 witness: the overlay facts at a concrete config in which the project
sets only the worktree strategy, its workspace sets only the ssh protocol, and
nothing else is set anywhere. -/
theorem C4_witness :
    ∃ ws' p' pg',
      ("w0", ws') ∈ (overlayConfig "/h" cfg4).workspaces
      ∧ ("p0", p') ∈ ws'.projects
      ∧ p'.git = some pg'
      ∧ (∀ h, pg4.core_settings.host = some h → (Git.new (Path.ofString "/r/w0/p0") pg').host = h)
      ∧ (∀ wg h, pg4.core_settings.host = none → ws4.git = some wg → wg.host = some h →
          (Git.new (Path.ofString "/r/w0/p0") pg').host = h)
      ∧ (pg4.core_settings.host = none → (∀ wg, ws4.git = some wg → wg.host = none) →
          cfg4.git.host = none → (Git.new (Path.ofString "/r/w0/p0") pg').host = .gitHub)
      ∧ (∀ h, pg4.core_settings.protocol = some h →
          (Git.new (Path.ofString "/r/w0/p0") pg').protocol = h)
      ∧ (∀ wg h, pg4.core_settings.protocol = none → ws4.git = some wg → wg.protocol = some h →
          (Git.new (Path.ofString "/r/w0/p0") pg').protocol = h)
      ∧ (pg4.core_settings.protocol = none → (∀ wg, ws4.git = some wg → wg.protocol = none) →
          cfg4.git.protocol = none → (Git.new (Path.ofString "/r/w0/p0") pg').protocol = .https)
      ∧ (∀ h, pg4.core_settings.clone_strategy = some h →
          (Git.new (Path.ofString "/r/w0/p0") pg').clone_strategy = h)
      ∧ (∀ wg h, pg4.core_settings.clone_strategy = none → ws4.git = some wg →
          wg.clone_strategy = some h →
          (Git.new (Path.ofString "/r/w0/p0") pg').clone_strategy = h)
      ∧ (pg4.core_settings.clone_strategy = none →
          (∀ wg, ws4.git = some wg → wg.clone_strategy = none) →
          cfg4.git.clone_strategy = none →
          (Git.new (Path.ofString "/r/w0/p0") pg').clone_strategy = .branch) :=
  C4_overlay_correct cfg4 "/h" "w0" "p0" ws4 ⟨some pg4⟩ pg4 (Path.ofString "/r/w0/p0")
    (by decide) (by decide) rfl

theorem append_one_inj (a : Path) {x y : String} (h : a ++ [x] = a ++ [y]) : x = y := by
  simpa using h

theorem append_two_inj (a : Path) {x y u v : String} (h : a ++ [x, y] = a ++ [u, v]) :
    x = u ∧ y = v := by
  simpa using h

theorem count_one_of_nodup_mem {α} [BEq α] [LawfulBEq α] {l : List α} (d : l.Nodup)
    {a : α} (h : a ∈ l) : l.count a = 1 := by
  induction l with
  | nil => cases h
  | cons x xs ih =>
    rw [List.count_cons]
    rcases List.mem_cons.mp h with rfl | hmem
    · rw [List.count_eq_zero.mpr (List.nodup_cons.mp d).1]
      simp
    · have hne : a ≠ x := by
        rintro rfl
        exact absurd hmem (List.nodup_cons.mp d).1
      rw [ih (List.nodup_cons.mp d).2 hmem]
      simp [Ne.symm hne]

theorem collect_ws_eq (c : Config) (hsimple : ∀ x ∈ c.workspaces, simpleName x.1) :
    c.collect_workspace_paths
      = c.workspaces.map (fun x => Path.ofString c.root ++ [x.1]) :=
  List.map_congr_left (fun x hx => join_simple _ _ (hsimple x hx))

theorem collect_proj_eq (c : Config)
    (hsimple : ∀ x ∈ c.workspaces, simpleName x.1 ∧ ∀ y ∈ x.2.projects, simpleName y.1) :
    c.collect_project_paths
      = (c.workspaces.map (fun x => x.2.projects.map
          (fun y => Path.ofString c.root ++ [x.1, y.1]))).flatten := by
  simp only [Config.collect_project_paths]
  congr 1
  apply List.map_congr_left
  intro x hx
  unfold Workspace.collect_project_paths
  rw [join_simple _ _ (hsimple x hx).1]
  apply List.map_congr_left
  intro y hy
  rw [join_simple _ _ ((hsimple x hx).2 y hy)]
  simp

theorem collect_ws_nodup (c : Config) (hnd : (c.workspaces.map Prod.fst).Nodup)
    (hsimple : ∀ x ∈ c.workspaces, simpleName x.1) :
    c.collect_workspace_paths.Nodup := by
  rw [collect_ws_eq c hsimple]
  have : (fun x : String × Workspace => Path.ofString c.root ++ [x.1])
      = (fun k => Path.ofString c.root ++ [k]) ∘ Prod.fst := rfl
  rw [this, ← List.map_map]
  exact hnd.map (fun a b hab => append_one_inj _ hab)

theorem collect_proj_nodup (c : Config) (hnd : (c.workspaces.map Prod.fst).Nodup)
    (hsimple : ∀ x ∈ c.workspaces, simpleName x.1
      ∧ (x.2.projects.map Prod.fst).Nodup ∧ ∀ y ∈ x.2.projects, simpleName y.1) :
    c.collect_project_paths.Nodup := by
  rw [collect_proj_eq c (fun x hx => ⟨(hsimple x hx).1, (hsimple x hx).2.2⟩)]
  rw [List.nodup_flatten]
  constructor
  · intro lx hlx
    obtain ⟨x, hx, rfl⟩ := List.mem_map.mp hlx
    have : (fun y : String × Project => Path.ofString c.root ++ [x.1, y.1])
        = (fun k => Path.ofString c.root ++ [x.1, k]) ∘ Prod.fst := rfl
    rw [this, ← List.map_map]
    exact (hsimple x hx).2.1.map (fun a b hab => (append_two_inj _ hab).2)
  · rw [List.pairwise_map]
    have hpw : c.workspaces.Pairwise (fun a b => a.1 ≠ b.1) :=
      (List.pairwise_map.mp hnd)
    refine hpw.imp ?_
    intro a b hne
    intro q hqa hqb
    obtain ⟨ya, _, rfl⟩ := List.mem_map.mp hqa
    obtain ⟨yb, _, hq⟩ := List.mem_map.mp hqb
    exact hne (append_two_inj _ hq.symm).1

/-- C1: with distinct single-component keys, `collect_workspace_paths` returns
exactly one entry per declared workspace and `collect_project_paths` exactly
one entry per declared project at its depth, each entry equal to the config
root joined with the chain of map keys leading to the node, and nothing
else. -/
theorem C1_collect_exactly_one (c : Config)
    (hnd : (c.workspaces.map Prod.fst).Nodup)
    (hsimple : ∀ x ∈ c.workspaces, simpleName x.1
      ∧ (x.2.projects.map Prod.fst).Nodup ∧ ∀ y ∈ x.2.projects, simpleName y.1) :
    (c.collect_workspace_paths.length = c.workspaces.length
      ∧ (∀ x ∈ c.workspaces,
          c.collect_workspace_paths.count (Path.ofString c.root ++ [x.1]) = 1)
      ∧ (∀ q ∈ c.collect_workspace_paths,
          ∃ x ∈ c.workspaces, q = Path.ofString c.root ++ [x.1]))
    ∧ (c.collect_project_paths.length
        = (c.workspaces.map (fun x => x.2.projects.length)).sum
      ∧ (∀ x ∈ c.workspaces, ∀ y ∈ x.2.projects,
          c.collect_project_paths.count (Path.ofString c.root ++ [x.1, y.1]) = 1)
      ∧ (∀ q ∈ c.collect_project_paths,
          ∃ x ∈ c.workspaces, ∃ y ∈ x.2.projects,
            q = Path.ofString c.root ++ [x.1, y.1])) := by
  have hs1 : ∀ x ∈ c.workspaces, simpleName x.1 := fun x hx => (hsimple x hx).1
  have hws := collect_ws_eq c hs1
  have hpr := collect_proj_eq c (fun x hx => ⟨(hsimple x hx).1, (hsimple x hx).2.2⟩)
  refine ⟨⟨?_, ?_, ?_⟩, ⟨?_, ?_, ?_⟩⟩
  · rw [hws, List.length_map]
  · intro x hx
    exact count_one_of_nodup_mem (collect_ws_nodup c hnd hs1)
      (by rw [hws]; exact List.mem_map.mpr ⟨x, hx, rfl⟩)
  · intro q hq
    rw [hws] at hq
    obtain ⟨x, hx, rfl⟩ := List.mem_map.mp hq
    exact ⟨x, hx, rfl⟩
  · rw [hpr, List.length_flatten, List.map_map]
    congr 1
    apply List.map_congr_left
    intro x _
    simp
  · intro x hx y hy
    refine count_one_of_nodup_mem (collect_proj_nodup c hnd hsimple) ?_
    rw [hpr]
    rw [List.mem_flatten]
    exact ⟨_, List.mem_map.mpr ⟨x, hx, rfl⟩, List.mem_map.mpr ⟨y, hy, rfl⟩⟩
  · intro q hq
    rw [hpr] at hq
    obtain ⟨lx, hlx, hqlx⟩ := List.mem_flatten.mp hq
    obtain ⟨x, hx, rfl⟩ := List.mem_map.mp hlx
    obtain ⟨y, hy, rfl⟩ := List.mem_map.mp hqlx
    exact ⟨x, hx, y, hy, rfl⟩

/-- C1 witness: the §8 scenario config root `/r`, workspace `w0`, project
`p0`. -/
theorem C1_witness :
    (cfgS.collect_workspace_paths.length = cfgS.workspaces.length
      ∧ (∀ x ∈ cfgS.workspaces,
          cfgS.collect_workspace_paths.count (Path.ofString cfgS.root ++ [x.1]) = 1)
      ∧ (∀ q ∈ cfgS.collect_workspace_paths,
          ∃ x ∈ cfgS.workspaces, q = Path.ofString cfgS.root ++ [x.1]))
    ∧ (cfgS.collect_project_paths.length
        = (cfgS.workspaces.map (fun x => x.2.projects.length)).sum
      ∧ (∀ x ∈ cfgS.workspaces, ∀ y ∈ x.2.projects,
          cfgS.collect_project_paths.count (Path.ofString cfgS.root ++ [x.1, y.1]) = 1)
      ∧ (∀ q ∈ cfgS.collect_project_paths,
          ∃ x ∈ cfgS.workspaces, ∃ y ∈ x.2.projects,
            q = Path.ofString cfgS.root ++ [x.1, y.1])) :=
  C1_collect_exactly_one cfgS (by decide) (by decide)

/-- C2 counterexample: against the stub transport `tC`, the retry attempt for
the first candidate "git" supplies an accepted username and succeeds via the
agent's SSH key on its second ssh prompt (counter 2, result ok), yet
`with_creds` does not stop there: the loop continues to the later candidates
and returns the last attempt's failure. -/
theorem C2_counterexample :
    retryAttempt tC gC "git" = (2, .ok ())
    ∧ with_creds tC false none gC = .error (.msg "no authentication methods succeeded") := by
  constructor
  · rfl
  · rfl

/-- C2 amended: after the first attempt has signalled username negotiation,
`with_creds` tries candidate usernames in exactly the order "git", the
hard-coded fallback identity "Will Czifro", then the environment's current
user when available; after each candidate's attempt the loop stops if and only
if that attempt's ssh/password prompt counter differs from 2, returning that
attempt's result — so it returns the result of the first candidate whose
counter is not 2, even when an earlier counter-2 attempt already succeeded. -/
theorem C2_retry_loop_behaviour
    (runFor : String → Nat × Except GitErr Unit) (res₀ : Except GitErr Unit)
    (l : List String) (k : Nat) (hk : k < l.length)
    (hbefore : ∀ i, i < k → (runFor (l.getD i "")).1 = 2)
    (hstop : (runFor (l.getD k "")).1 ≠ 2)
    (t : Transport) (helperOk : Bool) (envUser : Option String) (g : Git)
    (hflag : (firstAttempt t helperOk g).1.sshUsernameRequested = true) :
    usernameLoop runFor l res₀ = (runFor (l.getD k "")).2
    ∧ (attemptsVec envUser).reverse = "git" :: "Will Czifro" :: envUser.toList
    ∧ with_creds t helperOk envUser g
        = usernameLoop (retryAttempt t g) ("git" :: "Will Czifro" :: envUser.toList)
            (firstAttempt t helperOk g).2 := by
  refine ⟨?_, ?_, ?_⟩
  · clear hflag
    induction l generalizing k res₀ with
    | nil => exact absurd hk (Nat.not_lt_zero k)
    | cons u rest ih =>
      cases k with
      | zero =>
        simp only [List.getD_cons_zero] at hstop ⊢
        simp only [usernameLoop]
        rw [if_pos hstop]
      | succ k' =>
        have h0 : (runFor u).1 = 2 := by
          simpa using hbefore 0 (Nat.succ_pos k')
        simp only [usernameLoop]
        rw [if_neg (by simp [h0])]
        simp only [List.getD_cons_succ]
        exact ih (runFor u).2 k' (Nat.lt_of_succ_lt_succ hk)
          (fun i hi => by simpa using hbefore (i + 1) (Nat.succ_lt_succ hi))
          (by simpa using hstop)
  · cases envUser <;> rfl
  · simp only [with_creds, hflag, if_true]
    cases envUser <;> rfl

/-- C2 witness: the loop-stop characterisation at the concrete outcome
function `runForW` (first candidate stops the loop with its success), and the
candidate order and loop shape of `with_creds` at the stub transport with the
environment user "alice". -/
theorem C2_witness :
    usernameLoop runForW ["git", "Will Czifro"] (.error (.msg "start")) = (runForW "git").2
    ∧ (attemptsVec (some "alice")).reverse = "git" :: "Will Czifro" :: ["alice"]
    ∧ with_creds tC false (some "alice") gC
        = usernameLoop (retryAttempt tC gC) ("git" :: "Will Czifro" :: ["alice"])
            (firstAttempt tC false gC).2 :=
  C2_retry_loop_behaviour runForW (.error (.msg "start")) ["git", "Will Czifro"] 0
    (by decide) (fun i hi => absurd hi (Nat.not_lt_zero i)) (by decide)
    tC false (some "alice") gC (by rfl)

theorem createDir_ok {fs : FS} {p : Path} {fs' : FS} (h : createDir fs p = .ok fs') :
    fs' = p :: fs := by
  unfold createDir at h
  split at h
  · simp at h
  · split at h
    · simp at h
    · split at h
      · simp only [Except.ok.injEq] at h
        exact h.symm
      · simp at h

theorem mem_missing_ws {fs : FS} {c : Config} {p : Path} :
    p ∈ (doctor fs c).missing_workspaces ↔ p ∈ c.collect_workspace_paths ∧ p ∉ fs := by
  unfold doctor fsExists
  simp [List.mem_filter]

theorem mem_missing_proj {fs : FS} {c : Config} {p : Path} :
    p ∈ (doctor fs c).missing_projects ↔ p ∈ c.collect_project_paths ∧ p ∉ fs := by
  unfold doctor fsExists
  simp [List.mem_filter]

theorem git_clone_full {cloneOk : Path → Bool} {fs : FS} {g : Git} {fs' : FS}
    {effs : List Effect} (h : Git.clone cloneOk fs g = .ok (fs', effs)) :
    fs ⊆ fs' ∧ g.path ∈ fs'
      ∧ ∀ q ∈ fs', q ∈ fs ∨ q = g.path ∨ q = Path.join g.path ".bare" := by
  simp only [Git.clone] at h
  split at h
  · next hmem =>
    simp only [Except.ok.injEq, Prod.mk.injEq] at h
    obtain ⟨rfl, rfl⟩ := h
    exact ⟨fun _ hx => hx, hmem, fun q hq => Or.inl hq⟩
  · next hmem =>
    split at h
    · split at h
      · simp at h
      · next fs₁ hc =>
        split at h
        · simp only [Except.ok.injEq, Prod.mk.injEq] at h
          obtain ⟨rfl, rfl⟩ := h
          rw [createDir_ok hc]
          refine ⟨fun q hq => List.mem_cons_of_mem _ (List.mem_cons_of_mem _ hq),
            List.mem_cons_of_mem _ (List.mem_cons_self _ _), ?_⟩
          intro q hq
          rcases List.mem_cons.mp hq with rfl | hq
          · exact Or.inr (Or.inr rfl)
          · rcases List.mem_cons.mp hq with rfl | hq
            · exact Or.inr (Or.inl rfl)
            · exact Or.inl hq
        · simp at h
    · split at h
      · simp only [Except.ok.injEq, Prod.mk.injEq] at h
        obtain ⟨rfl, rfl⟩ := h
        refine ⟨List.subset_cons_self _ _, List.mem_cons_self _ _, ?_⟩
        intro q hq
        rcases List.mem_cons.mp hq with rfl | hq
        · exact Or.inr (Or.inl rfl)
        · exact Or.inl hq
      · simp at h

theorem restore_project_skip {cloneOk : Path → Bool} {c : Config} {fs : FS} {p : Path}
    (hmem : p ∈ fs) : restore_project cloneOk c fs p = .ok (fs, []) := by
  unfold restore_project
  rw [if_pos hmem]

theorem restore_project_full {cloneOk : Path → Bool} {c : Config} {fs : FS} {p : Path}
    {fs' : FS} {effs : List Effect}
    (h : restore_project cloneOk c fs p = .ok (fs', effs)) :
    fs ⊆ fs' ∧ p ∈ fs'
      ∧ ∀ q ∈ fs', q ∈ fs ∨ q = p ∨ q = Path.join p ".bare" := by
  unfold restore_project at h
  split at h
  · next hmem =>
    simp only [Except.ok.injEq, Prod.mk.injEq] at h
    obtain ⟨rfl, rfl⟩ := h
    exact ⟨fun _ hx => hx, hmem, fun q hq => Or.inl hq⟩
  · split at h
    · simp at h
    · split at h
      · split at h
        · simp at h
        · next fs₁ hc =>
          simp only [Except.ok.injEq, Prod.mk.injEq] at h
          obtain ⟨rfl, rfl⟩ := h
          rw [createDir_ok hc]
          refine ⟨List.subset_cons_self _ _, List.mem_cons_self _ _, ?_⟩
          intro q hq
          rcases List.mem_cons.mp hq with rfl | hq
          · exact Or.inr (Or.inl rfl)
          · exact Or.inl hq
      · exact git_clone_full h

theorem restoreProjects_skip {cloneOk : Path → Bool} {c : Config} {ps : List Path}
    {fs : FS} {e : List Effect} (h : ∀ p ∈ ps, p ∈ fs) :
    restoreProjects cloneOk c ps (fs, e) = .ok (fs, e) := by
  induction ps with
  | nil => rfl
  | cons p ps ih =>
    simp only [restoreProjects]
    rw [restore_project_skip (h p (List.mem_cons_self _ _))]
    simpa using ih (fun q hq => h q (List.mem_cons_of_mem _ hq))

theorem restoreProjects_full {cloneOk : Path → Bool} {c : Config} {ps : List Path}
    {acc : FS × List Effect} {fs' : FS} {effs : List Effect}
    (h : restoreProjects cloneOk c ps acc = .ok (fs', effs)) :
    acc.1 ⊆ fs' ∧ (∀ p ∈ ps, p ∈ fs')
      ∧ ∀ q ∈ fs', q ∈ acc.1 ∨ ∃ p ∈ ps, q = p ∨ q = Path.join p ".bare" := by
  induction ps generalizing acc with
  | nil =>
    simp only [restoreProjects, Except.ok.injEq] at h
    subst h
    exact ⟨fun _ hx => hx, fun p hp => absurd hp (List.not_mem_nil p),
      fun q hq => Or.inl hq⟩
  | cons p ps ih =>
    simp only [restoreProjects] at h
    split at h
    · simp at h
    · next r hr =>
      have hp := restore_project_full hr
      have hrec := ih h
      refine ⟨fun q hq => hrec.1 (hp.1 hq), ?_, ?_⟩
      · intro q hq
        rcases List.mem_cons.mp hq with rfl | hq
        · exact hrec.1 hp.2.1
        · exact hrec.2.1 q hq
      · intro q hq
        rcases hrec.2.2 q hq with hin | ⟨p', hp', hor⟩
        · rcases hp.2.2 q hin with hin' | hor'
          · exact Or.inl hin'
          · exact Or.inr ⟨p, List.mem_cons_self _ _, hor'⟩
        · exact Or.inr ⟨p', List.mem_cons_of_mem _ hp', hor⟩

theorem normPath_collect {c : Config} {p : Path} (hp : p ∈ c.collect_workspace_paths) :
    normPath c p = p := by
  simp only [Config.collect_workspace_paths] at hp
  obtain ⟨x, _, rfl⟩ := List.mem_map.mp hp
  cases habs : Path.isAbs (Path.ofString x.1) with
  | false =>
    have hj : Path.join (Path.ofString c.root) x.1
        = Path.ofString c.root ++ Path.ofString x.1 := by
      simp [Path.join, Path.joinPath, habs]
    rw [hj]
    have hpre : (Path.ofString c.root).isPrefixOf
        (Path.ofString c.root ++ Path.ofString x.1) = true := by
      rw [ List.isPrefixOf_iff_prefix]
      exact ⟨_, rfl⟩
    simp [normPath, hpre]
  | true =>
    have hj : Path.join (Path.ofString c.root) x.1 = Path.ofString x.1 := by
      simp [Path.join, Path.joinPath, habs]
    rw [hj]
    simp only [normPath, Path.joinPath, habs, if_true]
    split <;> rfl

theorem restoreWorkspace_full {cloneOk : Path → Bool} {c : Config} {fs : FS} {w : Path}
    {i : Bool} {fs' : FS} {effs : List Effect}
    (h : restoreWorkspace cloneOk c fs w i = .ok (fs', effs)) :
    fs ⊆ fs'
    ∧ (normPath c w ∈ c.collect_workspace_paths → normPath c w ∈ fs')
    ∧ ∃ ws, c.lookup_workspace w = .ok ws
        ∧ (i = true → ∀ p ∈ ws.collect_project_paths (normPath c w), p ∈ fs')
        ∧ ∀ q ∈ fs', q ∈ fs ∨ q = normPath c w
            ∨ ∃ p ∈ ws.collect_project_paths (normPath c w), q = p ∨ q = Path.join p ".bare" := by
  simp only [restoreWorkspace] at h
  split at h
  · simp at h
  · next ws hlook =>
    split at h
    · simp at h
    · next acc hstep =>
      have hacc : fs ⊆ acc.1 ∧ (normPath c w ∈ c.collect_workspace_paths → normPath c w ∈ acc.1)
          ∧ ∀ q ∈ acc.1, q ∈ fs ∨ q = normPath c w := by
        split at hstep
        · next hmiss =>
          split at hstep
          · simp at hstep
          · next fs₁ hc =>
            simp only [Except.ok.injEq] at hstep
            rw [← hstep]
            rw [createDir_ok hc]
            refine ⟨List.subset_cons_self _ _, fun _ => List.mem_cons_self _ _, ?_⟩
            intro q hq
            rcases List.mem_cons.mp hq with rfl | hq
            · exact Or.inr rfl
            · exact Or.inl hq
        · next hmiss =>
          simp only [Except.ok.injEq] at hstep
          rw [← hstep]
          refine ⟨fun _ hx => hx, ?_, fun q hq => Or.inl hq⟩
          intro hcol
          by_contra hnot
          exact hmiss (mem_missing_ws.mpr ⟨hcol, hnot⟩)
      split at h
      · next hinc =>
        have hp := restoreProjects_full h
        refine ⟨fun q hq => hp.1 (hacc.1 hq), fun hcol => hp.1 (hacc.2.1 hcol),
          ws, hlook, fun _ => hp.2.1, ?_⟩
        intro q hq
        rcases hp.2.2 q hq with hin | ⟨p', hp', hor⟩
        · rcases hacc.2.2 q hin with hin' | hq'
          · exact Or.inl hin'
          · exact Or.inr (Or.inl hq')
        · exact Or.inr (Or.inr ⟨p', hp', hor⟩)
      · next hinc =>
        simp only [Except.ok.injEq] at h
        have hib : i = false := by
          cases i
          · rfl
          · exact absurd rfl hinc
        subst h
        refine ⟨hacc.1, hacc.2.1, ws, hlook, ?_, ?_⟩
        · intro hit
          rw [hib] at hit
          cases hit
        · intro q hq
          rcases hacc.2.2 q hq with hin | hq'
          · exact Or.inl hin
          · exact Or.inr (Or.inl hq')

theorem restoreWorkspace_again {cloneOk : Path → Bool} {c : Config} {fs : FS} {w : Path}
    {i : Bool} {fs₁ : FS} {effs : List Effect}
    (h : restoreWorkspace cloneOk c fs w i = .ok (fs₁, effs)) {fs₂ : FS} (hsub : fs₁ ⊆ fs₂) :
    restoreWorkspace cloneOk c fs₂ w i = .ok (fs₂, []) := by
  obtain ⟨hfs, hdecl, ws, hlook, hproj, _⟩ := restoreWorkspace_full h
  simp only [restoreWorkspace]
  rw [hlook]
  dsimp only
  have hnm : normPath c w ∉ (doctor fs₂ c).missing_workspaces := by
    rw [mem_missing_ws]
    rintro ⟨hcol, hnotin⟩
    exact hnotin (hsub (hdecl hcol))
  rw [if_neg hnm]
  cases i with
  | false => rfl
  | true =>
    dsimp only [if_true]
    exact restoreProjects_skip (fun p hp => hsub (hproj rfl p hp))

theorem restoreAll_full {cloneOk : Path → Bool} {c : Config} {i : Bool} {l : List Path}
    {acc : FS × List Effect} {fs' : FS} {effs : List Effect}
    (h : restoreAll cloneOk c i l acc = .ok (fs', effs)) :
    acc.1 ⊆ fs'
    ∧ (∀ w ∈ l, normPath c w ∈ c.collect_workspace_paths → normPath c w ∈ fs')
    ∧ ∀ q ∈ fs', q ∈ acc.1 ∨ ∃ w ∈ l, ∃ ws, c.lookup_workspace w = .ok ws
        ∧ (q = normPath c w
          ∨ ∃ p ∈ ws.collect_project_paths (normPath c w), q = p ∨ q = Path.join p ".bare") := by
  induction l generalizing acc with
  | nil =>
    simp only [restoreAll, Except.ok.injEq] at h
    subst h
    exact ⟨fun _ hx => hx, fun w hw => absurd hw (List.not_mem_nil w),
      fun q hq => Or.inl hq⟩
  | cons w ws ih =>
    simp only [restoreAll] at h
    split at h
    · simp at h
    · next r hr =>
      obtain ⟨hsub, hdecl, wsv, hlook, _, hadds⟩ := restoreWorkspace_full hr
      have hrec := ih h
      refine ⟨fun q hq => hrec.1 (hsub hq), ?_, ?_⟩
      · intro w' hw' hcol
        rcases List.mem_cons.mp hw' with rfl | hw'
        · exact hrec.1 (hdecl hcol)
        · exact hrec.2.1 w' hw' hcol
      · intro q hq
        rcases hrec.2.2 q hq with hin | ⟨w', hw', hrest⟩
        · rcases hadds q hin with hin' | hor
          · exact Or.inl hin'
          · exact Or.inr ⟨w, List.mem_cons_self _ _, wsv, hlook, hor⟩
        · exact Or.inr ⟨w', List.mem_cons_of_mem _ hw', hrest⟩

/-- C5: restore is idempotent on success: when an invocation completes, the
identical invocation on the resulting filesystem completes with the same
filesystem and performs no side effects at all — every node whose path already
exists is skipped as a no-op. -/
theorem C5_restore_idempotent (cloneOk : Path → Bool) (c : Config) (fs : FS)
    (opt : RestoreOption) (fs' : FS) (effs : List Effect)
    (h : restore cloneOk c fs opt = .ok (fs', effs)) :
    restore cloneOk c fs' opt = .ok (fs', []) := by
  cases opt with
  | workspace w i => exact restoreWorkspace_again h (fun q hq => hq)
  | allWorkspaces i =>
    simp only [restore] at h ⊢
    have hall := restoreAll_full h
    have hsub : fs ⊆ fs' := hall.1
    have hempty : (doctor fs' c).missing_workspaces = [] := by
      apply List.filter_eq_nil_iff.mpr
      intro p hp
      have hpin : p ∈ fs' := by
        by_cases hpfs : p ∈ fs
        · exact hsub hpfs
        · have hmem : p ∈ (doctor fs c).missing_workspaces :=
            mem_missing_ws.mpr ⟨hp, hpfs⟩
          have := hall.2.1 p hmem
          rw [normPath_collect hp] at this
          exact this hp
      simp [fsExists, hpin]
    rw [hempty]
    rfl
  | project pp =>
    simp only [restore] at h ⊢
    split at h
    · simp at h
    · next par hpar =>
      split at h
      · simp at h
      · next acc hrw =>
        cases acc with
        | mk a1 a2 =>
          split at h
          · next hmiss =>
            split at h
            · simp at h
            · next r hrp =>
              simp only [Except.ok.injEq, Prod.mk.injEq] at h
              obtain ⟨h1, _⟩ := h
              have hpfull := restore_project_full hrp
              have hsub : a1 ⊆ fs' := h1 ▸ hpfull.1
              rw [restoreWorkspace_again hrw hsub]
              dsimp only
              have hnp : normPath c pp ∉ (doctor fs' c).missing_projects := by
                rw [mem_missing_proj]
                rintro ⟨_, hno⟩
                exact hno (h1 ▸ hpfull.2.1)
              rw [if_neg hnp]
          · next hmiss =>
            simp only [Except.ok.injEq, Prod.mk.injEq] at h
            obtain ⟨rfl, rfl⟩ := h
            rw [restoreWorkspace_again hrw (fun q hq => hq)]
            dsimp only
            have hnp : normPath c pp ∉ (doctor a1 c).missing_projects := by
              rw [mem_missing_proj]
              rintro ⟨hcol, hno⟩
              have hfs : normPath c pp ∈ fs := by
                by_contra hnfs
                exact hmiss (mem_missing_proj.mpr ⟨hcol, hnfs⟩)
              exact hno ((restoreWorkspace_full hrw).1 hfs)
            rw [if_neg hnp]

/-- C5 witness: rerunning the §8 scenario restore (workspace `/r/w0` with its
projects, after it created `/r/w0` and `/r/w0/p0`) succeeds with the same
filesystem and an empty effect list. -/
theorem C5_witness :
    restore (fun _ => true) cfgS
      [Path.ofString "/r/w0/p0", Path.ofString "/r/w0", Path.ofString "/r"]
      (.workspace (Path.ofString "/r/w0") true)
      = .ok ([Path.ofString "/r/w0/p0", Path.ofString "/r/w0", Path.ofString "/r"], []) :=
  C5_restore_idempotent (fun _ => true) cfgS [Path.ofString "/r"]
    (.workspace (Path.ofString "/r/w0") true)
    [Path.ofString "/r/w0/p0", Path.ofString "/r/w0", Path.ofString "/r"]
    [.createdDir (Path.ofString "/r/w0"), .createdDir (Path.ofString "/r/w0/p0")]
    rfl

theorem append_cancel {a b d : List String} (h : a ++ b = a ++ d) : b = d := by
  simpa using h

theorem lookupKey_mem {α} {l : List (String × α)} {k : String} {v : α}
    (h : lookupKey l k = some v) : ∃ k', (k', v) ∈ l := by
  unfold lookupKey at h
  obtain ⟨⟨k', v'⟩, ha, hav⟩ := Option.map_eq_some'.mp h
  dsimp only at hav
  subst hav
  exact ⟨k', List.mem_of_find?_eq_some ha⟩

theorem lookup_workspace_mem {c : Config} {w : Path} {ws : Workspace}
    (h : c.lookup_workspace w = .ok ws) : ∃ k, (k, ws) ∈ c.workspaces := by
  unfold Config.lookup_workspace at h
  split at h
  · next w' heq =>
    simp only [Except.ok.injEq] at h
    subst h
    exact lookupKey_mem heq
  · simp at h

/-- C10: an all-workspaces restore with projects creates or clones only
projects whose owning workspace was itself missing in the initial diagnosis;
a missing project whose owning workspace directory already exists on disk is
left unrestored and its path untouched. -/
theorem C10_all_workspaces_frame (cloneOk : Path → Bool) (c : Config) (fs : FS)
    (hnames : ∀ x ∈ c.workspaces, simpleName x.1 ∧ ∀ y ∈ x.2.projects, simpleName y.1)
    (fs' : FS) (effs : List Effect)
    (hrun : restore cloneOk c fs (.allWorkspaces true) = .ok (fs', effs)) :
    (∀ wn pn : String, ∀ ws : Workspace,
        (wn, ws) ∈ c.workspaces → pn ∈ ws.projects.map Prod.fst →
        Path.ofString c.root ++ [wn] ∈ fs →
        Path.ofString c.root ++ [wn, pn] ∉ fs →
        Path.ofString c.root ++ [wn, pn] ∉ fs')
    ∧ (∀ q ∈ c.collect_project_paths, q ∉ fs → q ∈ fs' →
        q.dropLast ∈ (doctor fs c).missing_workspaces) := by
  simp only [restore] at hrun
  have hfull := restoreAll_full hrun
  have hmem_shape : ∀ w ∈ (doctor fs c).missing_workspaces,
      ∃ wn', simpleName wn' ∧ w = Path.ofString c.root ++ [wn'] := by
    intro w hw
    obtain ⟨hcol, _⟩ := mem_missing_ws.mp hw
    simp only [Config.collect_workspace_paths] at hcol
    obtain ⟨x, hx, rfl⟩ := List.mem_map.mp hcol
    exact ⟨x.1, (hnames x hx).1, join_simple _ _ (hnames x hx).1⟩
  have haddw : ∀ q ∈ fs', q ∉ fs →
      ∃ wn', simpleName wn'
        ∧ Path.ofString c.root ++ [wn'] ∈ (doctor fs c).missing_workspaces
        ∧ (q = Path.ofString c.root ++ [wn']
          ∨ (∃ pn', q = Path.ofString c.root ++ [wn', pn'])
          ∨ (∃ pn', q = Path.ofString c.root ++ [wn', pn', ".bare"])) := by
    intro q hq hqf
    rcases hfull.2.2 q hq with hin | ⟨w, hw, wsv, hlook, hcase⟩
    · exact absurd hin hqf
    · obtain ⟨wn', hsimp, hweq⟩ := hmem_shape w hw
      have hnorm : normPath c w = w := normPath_collect (mem_missing_ws.mp hw).1
      rw [hnorm] at hcase
      have hprojsimple : ∀ y ∈ wsv.projects, simpleName y.1 := by
        obtain ⟨k, hk⟩ := lookup_workspace_mem hlook
        exact (hnames (k, wsv) hk).2
      subst hweq
      refine ⟨wn', hsimp, hw, ?_⟩
      rcases hcase with rfl | ⟨p', hp', hor⟩
      · exact Or.inl rfl
      · simp only [Workspace.collect_project_paths] at hp'
        obtain ⟨y, hy, rfl⟩ := List.mem_map.mp hp'
        rw [join_simple _ _ (hprojsimple y hy)] at hor
        rcases hor with rfl | rfl
        · exact Or.inr (Or.inl ⟨y.1, by simp⟩)
        · rw [join_simple _ _ (by decide : simpleName ".bare")]
          exact Or.inr (Or.inr ⟨y.1, by simp⟩)
  constructor
  · rintro wn pn ws hws hpn hwsfs hpfs hpfs'
    obtain ⟨wn', _, hwmiss, hcase⟩ := haddw _ hpfs' hpfs
    have hwn'fs : Path.ofString c.root ++ [wn'] ∉ fs := (mem_missing_ws.mp hwmiss).2
    rcases hcase with heq | ⟨pn', heq⟩ | ⟨pn', heq⟩
    · have h2 := append_cancel heq
      simp at h2
    · have h2 := append_cancel heq
      simp only [List.cons.injEq, and_true] at h2
      exact hwn'fs (h2.1 ▸ hwsfs)
    · have h2 := append_cancel heq
      simp at h2
  · intro q hq hqfs hqfs'
    have hq' := hq
    rw [collect_proj_eq c hnames] at hq'
    obtain ⟨lx, hlx, hqlx⟩ := List.mem_flatten.mp hq'
    obtain ⟨x, hx, rfl⟩ := List.mem_map.mp hlx
    obtain ⟨y, hy, rfl⟩ := List.mem_map.mp hqlx
    obtain ⟨wn', _, hwmiss, hcase⟩ := haddw _ hqfs' hqfs
    rcases hcase with heq | ⟨pn', heq⟩ | ⟨pn', heq⟩
    · have h2 := append_cancel heq
      simp at h2
    · have h2 := append_cancel heq
      simp only [List.cons.injEq, and_true] at h2
      have hdrop : (Path.ofString c.root ++ [x.1, y.1]).dropLast
          = Path.ofString c.root ++ [x.1] := by
        have hsplit : Path.ofString c.root ++ [x.1, y.1]
            = (Path.ofString c.root ++ [x.1]) ++ [y.1] := by simp
        rw [hsplit]
        simp
      rw [hdrop, h2.1]
      exact hwmiss
    · have h2 := append_cancel heq
      simp at h2

/-- C10 witness: after restoring all workspaces of `cfgT` with projects from
`fsT`, the missing project `a/x` of the existing workspace `a` is still
untouched, while the restored project `b/y` indeed had its owner in the
initial missing-workspaces set. -/
theorem C10_witness :
    Path.ofString "/r" ++ ["a", "x"]
      ∉ [Path.ofString "/r/b/y", Path.ofString "/r/b", Path.ofString "/r", Path.ofString "/r/a"]
    ∧ (Path.ofString "/r" ++ ["b", "y"]).dropLast ∈ (doctor fsT cfgT).missing_workspaces :=
  have h := C10_all_workspaces_frame (fun _ => true) cfgT fsT (by decide)
    [Path.ofString "/r/b/y", Path.ofString "/r/b", Path.ofString "/r", Path.ofString "/r/a"]
    [.createdDir (Path.ofString "/r/b"), .createdDir (Path.ofString "/r/b/y")] rfl
  ⟨h.1 "a" "x" { projects := [("x", ⟨none⟩)], git := none }
      (by decide) (by decide) (by decide) (by decide),
   h.2 (Path.ofString "/r" ++ ["b", "y"]) (by decide) (by decide) (by decide)⟩

end DevWorkspaces
